import Mathlib

/-!
A shallow embedding of the `TaskQueue` class of `src/code/task-queue.js`
and proofs about its behaviour.

The queue keeps a waiting list (`taskQueue`) of submitted entries sorted by
ascending priority (JavaScript `Array.prototype.sort` is stable, which the
stable `List.insertionSort` mirrors), a counter `runningTasks` of in-flight
tasks, and a `paused` flag.  Methods are modelled as state-transition
functions; the asynchronous settlement of a running task is an explicit
scheduler event (`Op.settle`).  Ghost fields (`running`, `started`,
`settled`, `events`) record which task identifiers are in flight, the order
in which tasks were started, how each task's returned future settled, and
the emitted `EventEmitter` notifications; they only observe the behaviour
of the source code, never steer it.
-/

namespace TaskQueueModel

/-- An error observed by the future returned from `add`: the dedicated
`TimeoutError` thrown by the timeout wrapper, or the task's own failure. -/
inductive TaskErr where
  | timeout
  | failure (code : Nat)
deriving DecidableEq, Repr

/-- Settlement outcome of a task (and of the future returned by `add`). -/
inductive Outcome where
  | ok (v : Nat)
  | err (e : TaskErr)
deriving DecidableEq, Repr

/-- The `concurrency` option is a JavaScript number defaulting to
`Infinity`; we model it as either a finite integer or infinity. -/
inductive Concurrency where
  | finite (n : Int)
  | infinite
deriving DecidableEq, Repr

/-- The comparison `this.runningTasks < this.concurrency` from
`processQueue`. -/
def ltConc (r : Nat) : Concurrency → Bool
  | .finite n => (r : Int) < n
  | .infinite => true

/-- Event names of the queue: the six the source emits (`active`,
`completed`, `error`, `idle`, `next`, `add`) plus `empty`, which
`onEmpty` subscribes to. -/
inductive Ev where
  | active
  | completed
  | error
  | idle
  | next
  | add
  | empty
deriving DecidableEq, Repr

/-- A waiting entry of `taskQueue`: a task identifier standing for the
task closure with its resolve/reject continuations, and its priority. -/
structure Entry where
  id : Nat
  priority : Int
deriving DecidableEq, Repr

/-- The scheduler-level description of a submitted task: when it settles
on its own (in ms from its start) and with which outcome. -/
structure TaskSpec where
  settleTime : Nat
  outcome : Outcome
deriving DecidableEq, Repr

/-- The mutable state of a `TaskQueue` instance, plus ghost observation
fields (`running`, `started`, `settled`, `events`). -/
structure QState where
  concurrency : Concurrency
  timeout : Nat
  throwOnTimeout : Bool
  autoStart : Bool
  taskQueue : List Entry
  runningTasks : Nat
  paused : Bool
  running : List Nat
  started : List Nat
  settled : List (Nat × Outcome)
  events : List Ev
deriving DecidableEq, Repr

/-- Constructor options with the source's default values. -/
structure Options where
  concurrency : Concurrency := .infinite
  timeout : Nat := 0
  throwOnTimeout : Bool := false
  autoStart : Bool := true
deriving DecidableEq, Repr

/-- The `TaskQueue` constructor: copies the options and sets
`taskQueue = []`, `runningTasks = 0`, `paused = !autoStart`. -/
def initQueue (o : Options) : QState :=
  { concurrency := o.concurrency
    timeout := o.timeout
    throwOnTimeout := o.throwOnTimeout
    autoStart := o.autoStart
    taskQueue := []
    runningTasks := 0
    paused := !o.autoStart
    running := []
    started := []
    settled := []
    events := [] }

/-- The constructor body contains no validation and no throw statement, so
construction never fails; wrapping it in `Except` records that fact. -/
def initQueueChecked (o : Options) : Except String QState :=
  .ok (initQueue o)

/-- The comparator `(a, b) => a.priority - b.priority` as an ordering
relation on entries. -/
def prioLE (a b : Entry) : Prop := a.priority ≤ b.priority

instance : DecidableRel prioLE := fun a b =>
  inferInstanceAs (Decidable (a.priority ≤ b.priority))

instance : IsTotal Entry prioLE := ⟨fun a b => Int.le_total a.priority b.priority⟩

instance : IsTrans Entry prioLE := ⟨fun _ _ _ h1 h2 => le_trans h1 h2⟩

/-- `this.taskQueue.sort((a, b) => a.priority - b.priority)`: a stable
sort by ascending priority. -/
def sortByPriority (l : List Entry) : List Entry :=
  l.insertionSort prioLE

/-- The `while` loop of `processQueue` over the waiting list: while
`runningTasks < concurrency` and entries remain, shift the head and start
it (the synchronous prefix of `runTask` increments `runningTasks`).
Returns the remaining waiting list, the new `runningTasks`, and the
identifiers started, in order. -/
def processGo (conc : Concurrency) : List Entry → Nat → List Entry × Nat × List Nat
  | [], r => ([], r, [])
  | e :: rest, r =>
    if ltConc r conc then
      let res := processGo conc rest (r + 1)
      (res.1, res.2.1, e.id :: res.2.2)
    else (e :: rest, r, [])

/-- `processQueue()`: dispatches waiting entries while not paused and
below the concurrency limit; each start appends the entry's identifier to
`running`/`started` and emits an `active` event. -/
def processQueue (s : QState) : QState :=
  if s.paused then s
  else
    let res := processGo s.concurrency s.taskQueue s.runningTasks
    { s with
        taskQueue := res.1
        runningTasks := res.2.1
        running := s.running ++ res.2.2
        started := s.started ++ res.2.2
        events := s.events ++ res.2.2.map fun _ => Ev.active }

/-- The identifiers a single `processQueue()` call would start from state
`s`, in start order. -/
def dispatchIds (s : QState) : List Nat :=
  if s.paused then []
  else (processGo s.concurrency s.taskQueue s.runningTasks).2.2

/-- `add(task, { priority })`: push the entry, re-sort the waiting list by
priority, emit `add`, and call `processQueue()` only when
`this.autoStart && !this.paused`. -/
def stepAdd (s : QState) (i : Nat) (p : Int) : QState :=
  let s1 : QState :=
    { s with
        taskQueue := sortByPriority (s.taskQueue ++ [⟨i, p⟩])
        events := s.events ++ [Ev.add] }
  if s1.autoStart && !s1.paused then processQueue s1 else s1

/-- `pause()`: sets `paused = true`. -/
def stepPause (s : QState) : QState := { s with paused := true }

/-- `start()`: only when paused, clears `paused` and calls
`processQueue()`. -/
def stepStart (s : QState) : QState :=
  if s.paused then processQueue { s with paused := false } else s

/-- `clear()`: `this.taskQueue = []`. -/
def stepClear (s : QState) : QState := { s with taskQueue := [] }

/-- `withTimeout(task, timeout)`: races the task against a deadline timer;
whichever settles first decides the wrapper's outcome, and a task that has
not settled before the deadline is observed as a `TimeoutError` (the late
settlement is discarded because the promise is already rejected). -/
def withTimeout (settleTime : Nat) (out : Outcome) (timeoutMs : Nat) : Outcome :=
  if settleTime < timeoutMs then out else .err .timeout

/-- The outcome `runTask` observes for a task: through `withTimeout` when
`this.timeout > 0`, the task's own outcome otherwise. -/
def taskObserved (timeoutCfg : Nat) (sp : TaskSpec) : Outcome :=
  if 0 < timeoutCfg then withTimeout sp.settleTime sp.outcome timeoutCfg
  else sp.outcome

/-- The event emitted when the observed outcome settles: `completed` on
success, `error` on failure. -/
def settleEv : Outcome → Ev
  | .ok _ => .completed
  | .err _ => .error

/-- The settlement half of `runTask`, before its `finally` block: the
observed outcome is delivered to the future's resolve/reject continuation
(recorded in `settled`), the matching event is emitted, the task leaves
the running set and `runningTasks` is decremented. -/
def settleCore (env : Nat → TaskSpec) (i : Nat) (s : QState) : QState :=
  let observed := taskObserved s.timeout (env i)
  { s with
      running := s.running.erase i
      runningTasks := s.runningTasks - 1
      settled := s.settled ++ [(i, observed)]
      events := s.events ++ [settleEv observed] }

/-- The `idle` emission of `runTask`'s `finally` block: fires when the
waiting list is empty and nothing runs. -/
def emitIdleIfDone (s : QState) : QState :=
  if s.taskQueue.isEmpty && (s.runningTasks == 0) then
    { s with events := s.events ++ [Ev.idle] }
  else s

/-- The unconditional `next` emission closing `runTask`'s `finally`
block. -/
def emitNext (s : QState) : QState :=
  { s with events := s.events ++ [Ev.next] }

/-- The `finally` block of `runTask` after the decrement: `processQueue()`
unless paused, an `idle` event when nothing waits or runs, then `next`. -/
def afterSettle (s : QState) : QState :=
  emitNext (emitIdleIfDone (if s.paused then s else processQueue s))

/-- The scheduler delivering the settlement of running task `i`: a no-op
unless `i` is actually in flight. -/
def stepSettle (env : Nat → TaskSpec) (s : QState) (i : Nat) : QState :=
  if i ∈ s.running then afterSettle (settleCore env i s) else s

/-- Operations a client (or the scheduler, for `settle`) can perform. -/
inductive Op where
  | add (i : Nat) (p : Int)
  | pause
  | start
  | clear
  | settle (i : Nat)
deriving DecidableEq, Repr

/-- One step of the queue's evolution. -/
def step (env : Nat → TaskSpec) (s : QState) : Op → QState
  | .add i p => stepAdd s i p
  | .pause => stepPause s
  | .start => stepStart s
  | .clear => stepClear s
  | .settle i => stepSettle env s i

/-- Running a sequence of operations. -/
def run (env : Nat → TaskSpec) (ops : List Op) (s : QState) : QState :=
  ops.foldl (step env) s

/-- A state reached from a freshly constructed queue by a sequence of
operations. -/
def reach (env : Nat → TaskSpec) (o : Options) (ops : List Op) : QState :=
  run env ops (initQueue o)

/-- `onEmpty()` settles its promise at the call itself exactly when
`this.taskQueue.length === 0`; otherwise it registers a one-shot listener
for the `empty` event. -/
def onEmptyResolvesNow (s : QState) : Bool :=
  s.taskQueue.length == 0

/-- Whether an operation is a submission with identifier `i`. -/
def opAddsId : Op → Nat → Bool
  | .add j _, i => j == i
  | _, _ => false

/-- A default environment for concrete runs: every task settles
immediately with value 0. -/
def env0 : Nat → TaskSpec := fun _ => ⟨0, .ok 0⟩

end TaskQueueModel

namespace TaskQueueModel

/-- The dispatch loop removes a prefix of the waiting list: for some `k`
it drops the first `k` entries, adds `k` to `runningTasks`, and starts
exactly the identifiers of those `k` entries in list order. -/
theorem processGo_eq_drop_take (conc : Concurrency) :
    ∀ (q : List Entry) (r : Nat),
      ∃ k, processGo conc q r = (q.drop k, r + k, (q.take k).map Entry.id) := by
  intro q
  induction q with
  | nil => intro r; exact ⟨0, by simp [processGo]⟩
  | cons e rest ih =>
    intro r
    cases h : ltConc r conc with
    | false => exact ⟨0, by simp [processGo, h]⟩
    | true =>
      obtain ⟨k, hk⟩ := ih (r + 1)
      refine ⟨k + 1, ?_⟩
      have harith : r + 1 + k = r + (k + 1) := by omega
      simp only [processGo, h, if_true, hk, List.drop_succ_cons, List.take_succ_cons,
        List.map_cons, harith]

/-- The loop guard bounds the running counter: with finite concurrency
`n`, starting from a count at most `n` the count stays at most `n`. -/
theorem processGo_runBound (n : Int) :
    ∀ (q : List Entry) (r : Nat), (r : Int) ≤ n →
      (((processGo (.finite n) q r).2.1 : Nat) : Int) ≤ n := by
  intro q
  induction q with
  | nil => intro r hr; simpa [processGo] using hr
  | cons e rest ih =>
    intro r hr
    cases h : ltConc r (Concurrency.finite n) with
    | false => simpa [processGo, h] using hr
    | true =>
      have hlt : (r : Int) < n := by simpa [ltConc] using h
      have : ((r + 1 : Nat) : Int) ≤ n := by push_cast; omega
      simpa [processGo, h] using ih (r + 1) this

/-- When the loop stops, either the waiting list is exhausted or the
guard `runningTasks < concurrency` fails. -/
theorem processGo_post (conc : Concurrency) :
    ∀ (q : List Entry) (r : Nat),
      (processGo conc q r).1 = [] ∨ ltConc (processGo conc q r).2.1 conc = false := by
  intro q
  induction q with
  | nil => intro r; left; simp [processGo]
  | cons e rest ih =>
    intro r
    cases h : ltConc r conc with
    | false => right; simp [processGo, h]
    | true => simpa [processGo, h] using ih (r + 1)

/-- When the guard already fails, the loop body never runs. -/
theorem processGo_stuck (conc : Concurrency) (q : List Entry) (r : Nat)
    (h : ltConc r conc = false) : processGo conc q r = (q, r, []) := by
  cases q <;> simp [processGo, h]

end TaskQueueModel

namespace TaskQueueModel

/-- `processQueue` leaves the configuration fields untouched. -/
theorem processQueue_concurrency (s : QState) :
    (processQueue s).concurrency = s.concurrency := by
  unfold processQueue; split <;> rfl

/-- `processQueue` leaves the timeout configuration untouched. -/
theorem processQueue_timeout (s : QState) :
    (processQueue s).timeout = s.timeout := by
  unfold processQueue; split <;> rfl

/-- `processQueue` leaves the `autoStart` flag untouched. -/
theorem processQueue_autoStart (s : QState) :
    (processQueue s).autoStart = s.autoStart := by
  unfold processQueue; split <;> rfl

/-- `processQueue` leaves the `paused` flag untouched. -/
theorem processQueue_paused (s : QState) :
    (processQueue s).paused = s.paused := by
  unfold processQueue; split <;> rfl

/-- `processQueue` settles no future. -/
theorem processQueue_settled (s : QState) :
    (processQueue s).settled = s.settled := by
  unfold processQueue; split <;> rfl

/-- A single `processQueue()` call removes a prefix of the waiting list
and starts exactly the identifiers of that prefix, in order. -/
theorem processQueue_spec (s : QState) :
    ∃ k,
      (processQueue s).taskQueue = s.taskQueue.drop k ∧
      (processQueue s).runningTasks = s.runningTasks + k ∧
      (processQueue s).running = s.running ++ (s.taskQueue.take k).map Entry.id ∧
      (processQueue s).started = s.started ++ (s.taskQueue.take k).map Entry.id ∧
      (processQueue s).events
        = s.events ++ ((s.taskQueue.take k).map Entry.id).map (fun _ => Ev.active) ∧
      dispatchIds s = (s.taskQueue.take k).map Entry.id := by
  by_cases hp : s.paused
  · exact ⟨0, by simp [processQueue, dispatchIds, hp]⟩
  · obtain ⟨k, hk⟩ := processGo_eq_drop_take s.concurrency s.taskQueue s.runningTasks
    exact ⟨k, by simp [processQueue, dispatchIds, hp, hk]⟩

/-- With finite concurrency `n`, `processQueue` keeps `runningTasks`
below `n` whenever it was so before. -/
theorem processQueue_runBound (s : QState) (n : Int)
    (hc : s.concurrency = .finite n) (hr : (s.runningTasks : Int) ≤ n) :
    (((processQueue s).runningTasks : Nat) : Int) ≤ n := by
  by_cases hp : s.paused
  · simpa [processQueue, hp] using hr
  · simpa [processQueue, hp, hc] using
      processGo_runBound n s.taskQueue s.runningTasks hr

/-- After an unpaused `processQueue()` call, either nothing waits or the
queue sits at its concurrency limit. -/
theorem processQueue_drained (s : QState) (hp : s.paused = false) :
    (processQueue s).taskQueue = [] ∨
      ltConc (processQueue s).runningTasks (processQueue s).concurrency = false := by
  have := processGo_post s.concurrency s.taskQueue s.runningTasks
  rcases this with h | h
  · left; simp [processQueue, hp, h]
  · right; simp [processQueue, hp, h]

/-- A `processQueue()` call whose guard fails at entry changes nothing. -/
theorem processQueue_stuck (s : QState)
    (h : ltConc s.runningTasks s.concurrency = false) : processQueue s = s := by
  cases s with
  | mk c t th a q r p rn st se ev =>
    by_cases hp : p
    · simp [processQueue, hp]
    · simp only [processQueue] at h ⊢
      simp [hp, processGo_stuck _ _ _ h]

end TaskQueueModel

namespace TaskQueueModel

/-- `emitIdleIfDone` only appends to the event log. -/
theorem emitIdleIfDone_fields (s : QState) :
    (emitIdleIfDone s).concurrency = s.concurrency ∧
    (emitIdleIfDone s).timeout = s.timeout ∧
    (emitIdleIfDone s).autoStart = s.autoStart ∧
    (emitIdleIfDone s).paused = s.paused ∧
    (emitIdleIfDone s).taskQueue = s.taskQueue ∧
    (emitIdleIfDone s).runningTasks = s.runningTasks ∧
    (emitIdleIfDone s).running = s.running ∧
    (emitIdleIfDone s).started = s.started ∧
    (emitIdleIfDone s).settled = s.settled := by
  unfold emitIdleIfDone; split <;> exact ⟨rfl, rfl, rfl, rfl, rfl, rfl, rfl, rfl, rfl⟩

/-- The state `afterSettle` builds on top of: `processQueue` unless
paused. -/
def afterSettleBase (s : QState) : QState :=
  if s.paused then s else processQueue s

/-- `afterSettle` only appends events on top of its `processQueue`
stage. -/
theorem afterSettle_fields (s : QState) :
    (afterSettle s).concurrency = (afterSettleBase s).concurrency ∧
    (afterSettle s).timeout = (afterSettleBase s).timeout ∧
    (afterSettle s).autoStart = (afterSettleBase s).autoStart ∧
    (afterSettle s).paused = (afterSettleBase s).paused ∧
    (afterSettle s).taskQueue = (afterSettleBase s).taskQueue ∧
    (afterSettle s).runningTasks = (afterSettleBase s).runningTasks ∧
    (afterSettle s).running = (afterSettleBase s).running ∧
    (afterSettle s).started = (afterSettleBase s).started ∧
    (afterSettle s).settled = (afterSettleBase s).settled := by
  have h := emitIdleIfDone_fields (if s.paused then s else processQueue s)
  simpa [afterSettle, emitNext, afterSettleBase] using h

/-- `afterSettleBase` keeps the configuration, flag and settlement
fields. -/
theorem afterSettleBase_fields (s : QState) :
    (afterSettleBase s).concurrency = s.concurrency ∧
    (afterSettleBase s).timeout = s.timeout ∧
    (afterSettleBase s).autoStart = s.autoStart ∧
    (afterSettleBase s).paused = s.paused ∧
    (afterSettleBase s).settled = s.settled := by
  unfold afterSettleBase
  split
  · exact ⟨rfl, rfl, rfl, rfl, rfl⟩
  · exact ⟨processQueue_concurrency s, processQueue_timeout s, processQueue_autoStart s,
      processQueue_paused s, processQueue_settled s⟩

/-- Every step preserves the configuration recorded at construction:
`concurrency`, `timeout`, and `autoStart`. -/
theorem step_config (env : Nat → TaskSpec) (s : QState) (op : Op) :
    (step env s op).concurrency = s.concurrency ∧
    (step env s op).timeout = s.timeout ∧
    (step env s op).autoStart = s.autoStart := by
  cases op with
  | add i p =>
    simp only [step, stepAdd]
    split
    · exact ⟨processQueue_concurrency _, processQueue_timeout _, processQueue_autoStart _⟩
    · exact ⟨rfl, rfl, rfl⟩
  | pause => exact ⟨rfl, rfl, rfl⟩
  | start =>
    simp only [step, stepStart]
    split
    · exact ⟨processQueue_concurrency _, processQueue_timeout _, processQueue_autoStart _⟩
    · exact ⟨rfl, rfl, rfl⟩
  | clear => exact ⟨rfl, rfl, rfl⟩
  | settle i =>
    simp only [step, stepSettle]
    split
    · obtain ⟨h1, h2, h3, -, -, -, -, -, -⟩ := afterSettle_fields (settleCore env i s)
      obtain ⟨g1, g2, g3, -, -⟩ := afterSettleBase_fields (settleCore env i s)
      exact ⟨h1.trans g1, h2.trans g2, h3.trans g3⟩
    · exact ⟨rfl, rfl, rfl⟩

/-- A property preserved by every step holds after any run. -/
theorem run_preserve (env : Nat → TaskSpec) (P : QState → Prop)
    (hP : ∀ s op, P s → P (step env s op)) :
    ∀ (ops : List Op) (s : QState), P s → P (run env ops s) := by
  intro ops
  induction ops with
  | nil => intro s h; simpa [run] using h
  | cons op rest ih =>
    intro s h
    simpa [run] using ih (step env s op) (hP s op h)

/-- A run never changes the configuration fields. -/
theorem run_config (env : Nat → TaskSpec) (ops : List Op) (s : QState) :
    (run env ops s).concurrency = s.concurrency ∧
    (run env ops s).timeout = s.timeout ∧
    (run env ops s).autoStart = s.autoStart := by
  refine run_preserve env
    (fun s' => s'.concurrency = s.concurrency ∧ s'.timeout = s.timeout ∧
      s'.autoStart = s.autoStart) ?_ ops s ⟨rfl, rfl, rfl⟩
  intro s' op ⟨h1, h2, h3⟩
  obtain ⟨g1, g2, g3⟩ := step_config env s' op
  exact ⟨g1.trans h1, g2.trans h2, g3.trans h3⟩

end TaskQueueModel

namespace TaskQueueModel

/-- With finite concurrency `n`, one step keeps `runningTasks` within the
bound `n`. -/
theorem step_runBound (env : Nat → TaskSpec) (s : QState) (op : Op) (n : Int)
    (hc : s.concurrency = .finite n) (hr : (s.runningTasks : Int) ≤ n) :
    ((step env s op).runningTasks : Int) ≤ n := by
  cases op with
  | add i p =>
    simp only [step, stepAdd]
    split
    · exact processQueue_runBound _ n hc hr
    · exact hr
  | pause => exact hr
  | start =>
    simp only [step, stepStart]
    split
    · exact processQueue_runBound _ n hc hr
    · exact hr
  | clear => exact hr
  | settle i =>
    simp only [step, stepSettle]
    split
    · have hc1 : (settleCore env i s).concurrency = .finite n := hc
      have hsub : (settleCore env i s).runningTasks ≤ s.runningTasks := Nat.sub_le _ _
      have hr1 : ((settleCore env i s).runningTasks : Int) ≤ n :=
        le_trans (by exact_mod_cast hsub) hr
      obtain ⟨-, -, -, -, -, h6, -, -, -⟩ := afterSettle_fields (settleCore env i s)
      rw [h6]
      unfold afterSettleBase
      split
      · exact hr1
      · exact processQueue_runBound _ n hc1 hr1
    · exact hr

/-- C1: for every queue constructed with a finite concurrency `n` (any
timeout, `throwOnTimeout` and `autoStart` settings) and every sequence of
add/pause/start/clear operations and task settlements, the number of
simultaneously running tasks (`runningTasks`) never exceeds `n`. -/
theorem runningTasks_never_exceed_concurrency (n t : Nat) (th a : Bool)
    (env : Nat → TaskSpec) (ops : List Op) :
    (run env ops (initQueue ⟨.finite n, t, th, a⟩)).runningTasks ≤ n := by
  have h := run_preserve env
    (fun s' => s'.concurrency = .finite (n : Int) ∧ (s'.runningTasks : Int) ≤ (n : Int))
    (fun s' op hP => ⟨((step_config env s' op).1).trans hP.1,
      step_runBound env s' op _ hP.1 hP.2⟩)
    ops (initQueue ⟨.finite n, t, th, a⟩) ⟨rfl, by simp [initQueue]⟩
  exact_mod_cast h.2

/-- Every step keeps the waiting list sorted by ascending priority. -/
theorem step_sorted (env : Nat → TaskSpec) (s : QState) (op : Op)
    (h : s.taskQueue.Sorted prioLE) : (step env s op).taskQueue.Sorted prioLE := by
  have hdrop : ∀ (s' : QState), s'.taskQueue.Sorted prioLE →
      (processQueue s').taskQueue.Sorted prioLE := by
    intro s' h'
    obtain ⟨k, hq, -⟩ := processQueue_spec s'
    rw [hq]
    exact h'.sublist (List.drop_sublist _ _)
  cases op with
  | add i p =>
    simp only [step, stepAdd]
    split
    · exact hdrop _ (List.sorted_insertionSort prioLE _)
    · exact List.sorted_insertionSort prioLE _
  | pause => exact h
  | start =>
    simp only [step, stepStart]
    split
    · exact hdrop _ h
    · exact h
  | clear => exact List.sorted_nil
  | settle i =>
    simp only [step, stepSettle]
    split
    · obtain ⟨-, -, -, -, h5, -, -, -, -⟩ := afterSettle_fields (settleCore env i s)
      rw [h5]
      unfold afterSettleBase
      split
      · exact h
      · exact hdrop _ h
    · exact h

/-- Every reachable state keeps the waiting list sorted by ascending
priority. -/
theorem reach_sorted (env : Nat → TaskSpec) (o : Options) (ops : List Op) :
    (reach env o ops).taskQueue.Sorted prioLE :=
  run_preserve env (fun s' => s'.taskQueue.Sorted prioLE)
    (fun s' op => step_sorted env s' op) ops (initQueue o) List.sorted_nil

end TaskQueueModel

namespace TaskQueueModel

/-- C2: in every reachable state, an entry with strictly smaller priority
value sits strictly earlier in the waiting list; a `processQueue()` call
starts exactly a prefix of the waiting list, in list order (so the
strictly-smaller-priority entry is started no later); and whenever
dispatch starts anything, the first entry removed is the head, a waiting
entry of minimal priority value. -/
theorem waiting_priority_dispatch_order (env : Nat → TaskSpec) (o : Options)
    (ops : List Op) :
    (∀ i j (hi : i < (reach env o ops).taskQueue.length)
        (hj : j < (reach env o ops).taskQueue.length),
        ((reach env o ops).taskQueue.get ⟨i, hi⟩).priority
            < ((reach env o ops).taskQueue.get ⟨j, hj⟩).priority → i < j) ∧
    (∃ k, dispatchIds (reach env o ops)
            = ((reach env o ops).taskQueue.take k).map Entry.id ∧
          (processQueue (reach env o ops)).taskQueue
            = (reach env o ops).taskQueue.drop k ∧
          (processQueue (reach env o ops)).started
            = (reach env o ops).started ++ dispatchIds (reach env o ops)) ∧
    (∀ e rest, (reach env o ops).taskQueue = e :: rest →
        (∀ e2 ∈ (reach env o ops).taskQueue, e.priority ≤ e2.priority) ∧
        (dispatchIds (reach env o ops) = [] ∨
          (dispatchIds (reach env o ops)).head? = some e.id)) := by
  have hs := reach_sorted env o ops
  obtain ⟨k, hq, -, -, hst, -, hd⟩ := processQueue_spec (reach env o ops)
  refine ⟨?_, ⟨k, hd, hq, by rw [hst, hd]⟩, ?_⟩
  · intro i j hi hj hlt
    by_contra hij
    rcases Nat.lt_or_ge j i with hji | hji
    · have hle := hs.rel_get_of_lt (show (⟨j, hj⟩ : Fin _) < ⟨i, hi⟩ from hji)
      have : ((reach env o ops).taskQueue.get ⟨j, hj⟩).priority
          ≤ ((reach env o ops).taskQueue.get ⟨i, hi⟩).priority := hle
      omega
    · have : j = i := by omega
      subst this
      exact absurd hlt (lt_irrefl _)
  · intro e rest hqe
    constructor
    · intro e2 he2
      rw [hqe] at he2
      rcases List.mem_cons.mp he2 with rfl | he2
      · exact le_refl _
      · exact List.rel_of_sorted_cons (hqe ▸ hs) e2 he2
    · cases k with
      | zero => left; rw [hd]; simp
      | succ k2 =>
        right
        rw [hd, hqe]
        simp [List.take_succ_cons]

/-- The dispatch loop only emits `active` events. -/
theorem processQueue_events_append (s : QState) :
    ∃ l, (processQueue s).events = s.events ++ l ∧ Ev.empty ∉ l := by
  obtain ⟨k, -, -, -, -, hev, -⟩ := processQueue_spec s
  refine ⟨_, hev, ?_⟩
  intro hmem
  obtain ⟨x, -, hx⟩ := List.mem_map.mp hmem
  exact Ev.noConfusion hx

/-- The settlement event is `completed` or `error`, never `empty`. -/
theorem settleEv_ne_empty (o : Outcome) : settleEv o ≠ Ev.empty := by
  cases o <;> simp [settleEv]

/-- `emitIdleIfDone` emits at most an `idle` event. -/
theorem emitIdleIfDone_events (s : QState) :
    ∃ l, (emitIdleIfDone s).events = s.events ++ l ∧ Ev.empty ∉ l := by
  unfold emitIdleIfDone
  split
  · exact ⟨[Ev.idle], rfl, by simp⟩
  · exact ⟨[], by simp, by simp⟩

/-- The `finally` block emits `active`/`idle`/`next` events only. -/
theorem afterSettle_events_append (s : QState) :
    ∃ l, (afterSettle s).events = s.events ++ l ∧ Ev.empty ∉ l := by
  have hbase : ∃ l, (afterSettleBase s).events = s.events ++ l ∧ Ev.empty ∉ l := by
    unfold afterSettleBase
    split
    · exact ⟨[], by simp, by simp⟩
    · exact processQueue_events_append s
  obtain ⟨l1, h1, hn1⟩ := hbase
  obtain ⟨l2, h2, hn2⟩ := emitIdleIfDone_events (afterSettleBase s)
  refine ⟨l1 ++ l2 ++ [Ev.next], ?_, ?_⟩
  · show (emitIdleIfDone (afterSettleBase s)).events ++ [Ev.next] = _
    rw [h2, h1]
    simp [List.append_assoc]
  · simp [List.mem_append, hn1, hn2]

/-- A step only appends to the event log, and the appended events never
include `empty`. -/
theorem step_events_append (env : Nat → TaskSpec) (s : QState) (op : Op) :
    ∃ l, (step env s op).events = s.events ++ l ∧ Ev.empty ∉ l := by
  cases op with
  | add i p =>
    simp only [step, stepAdd]
    split
    · obtain ⟨l, hl, hnl⟩ := processQueue_events_append _
      refine ⟨Ev.add :: l, ?_, ?_⟩
      · rw [hl]; simp
      · simp [hnl]
    · exact ⟨[Ev.add], rfl, by simp⟩
  | pause => exact ⟨[], by simp [step, stepPause], by simp⟩
  | start =>
    simp only [step, stepStart]
    split
    · exact processQueue_events_append _
    · exact ⟨[], by simp, by simp⟩
  | clear => exact ⟨[], by simp [step, stepClear], by simp⟩
  | settle i =>
    simp only [step, stepSettle]
    split
    · obtain ⟨l, hl, hnl⟩ := afterSettle_events_append (settleCore env i s)
      refine ⟨settleEv (taskObserved s.timeout (env i)) :: l, ?_, ?_⟩
      · rw [hl]
        show (s.events ++ [settleEv (taskObserved s.timeout (env i))]) ++ l = _
        simp
      · intro hmem
        rcases List.mem_cons.mp hmem with he | he
        · exact settleEv_ne_empty _ he.symm
        · exact hnl he
    · exact ⟨[], by simp, by simp⟩

/-- No run ever emits the `empty` event. -/
theorem reach_no_empty_event (env : Nat → TaskSpec) (o : Options) (ops : List Op) :
    Ev.empty ∉ (reach env o ops).events := by
  refine run_preserve env (fun s' => Ev.empty ∉ s'.events) ?_ ops (initQueue o)
    (by simp [initQueue])
  intro s' op hP
  obtain ⟨l, hl, hnl⟩ := step_events_append env s' op
  rw [hl]
  simp [List.mem_append, hP, hnl]

end TaskQueueModel

namespace TaskQueueModel

/-- A queue with concurrency 1 that begins paused, for concrete runs. -/
def oPaused1 : Options := { concurrency := .finite 1, autoStart := false }

/-- C3 (code bug): `onEmpty()` resolves immediately when the waiting list
is already empty at the call, but when it is nonempty it registers a
listener for the `empty` event — and no run ever emits `empty`, so that
promise never resolves even once the waiting list becomes empty.  The
concrete run below adds one task (waiting list nonempty, so `onEmpty`
would register the listener), starts the queue and settles the task: the
waiting list is empty, nothing runs, and still no `empty` event exists in
the log. -/
theorem onEmpty_event_never_emitted :
    (∀ (env : Nat → TaskSpec) (o : Options) (ops : List Op),
        Ev.empty ∉ (reach env o ops).events) ∧
    onEmptyResolvesNow (reach env0 oPaused1 []) = true ∧
    onEmptyResolvesNow (reach env0 oPaused1 [.add 0 0]) = false ∧
    (reach env0 oPaused1 [.add 0 0, .start, .settle 0]).taskQueue = [] ∧
    (reach env0 oPaused1 [.add 0 0, .start, .settle 0]).runningTasks = 0 :=
  ⟨reach_no_empty_event, by decide, by decide, by decide, by decide⟩

/-- `stepSettle` on a running task appends exactly the observed outcome to
the settlement log. -/
theorem stepSettle_settled (env : Nat → TaskSpec) (s : QState) (i : Nat)
    (hi : i ∈ s.running) :
    (stepSettle env s i).settled = s.settled ++ [(i, taskObserved s.timeout (env i))] := by
  simp only [stepSettle, if_pos hi]
  obtain ⟨-, -, -, -, -, -, -, -, h9⟩ := afterSettle_fields (settleCore env i s)
  obtain ⟨-, -, -, -, g5⟩ := afterSettleBase_fields (settleCore env i s)
  rw [h9, g5]
  rfl

/-- C4: with a positive configured timeout, a running task that does not
settle before the deadline elapses is observed as a `TimeoutError`: the
future returned by `add` rejects with it, and whatever the task itself
later settles with is discarded by the wrapper — the recorded settlement
is never the task's own resolution value. -/
theorem timeout_rejects_late_task (env : Nat → TaskSpec) (s : QState) (i : Nat)
    (hi : i ∈ s.running) (ht : 0 < s.timeout)
    (hlate : s.timeout ≤ (env i).settleTime) :
    (stepSettle env s i).settled = s.settled ++ [(i, .err .timeout)] ∧
    ∀ v, taskObserved s.timeout (env i) ≠ .ok v := by
  have hobs : taskObserved s.timeout (env i) = .err .timeout := by
    unfold taskObserved withTimeout
    rw [if_pos ht, if_neg (by omega)]
  refine ⟨?_, ?_⟩
  · rw [stepSettle_settled env s i hi, hobs]
  · intro v
    rw [hobs]
    intro hcon
    cases hcon

/-- A state with one in-flight task (identifier 7) and a 5 ms timeout. -/
def sTimed : QState :=
  { concurrency := .infinite
    timeout := 5
    throwOnTimeout := false
    autoStart := true
    taskQueue := []
    runningTasks := 1
    paused := false
    running := [7]
    started := [7]
    settled := []
    events := [Ev.add, Ev.active] }

/-- A task environment where every task would settle at 10 ms with the
value 3. -/
def envLate : Nat → TaskSpec := fun _ => ⟨10, .ok 3⟩

/-- Witness for C4: task 7 settles at 10 ms against a 5 ms timeout, so the
future rejects with the `TimeoutError` and the value 3 is discarded. -/
theorem timeout_rejects_late_task_witness :
    (stepSettle envLate sTimed 7).settled = sTimed.settled ++ [(7, .err .timeout)] ∧
    ∀ v, taskObserved sTimed.timeout (envLate 7) ≠ .ok v :=
  timeout_rejects_late_task envLate sTimed 7 (by decide) (by decide) (by decide)

/-- C5: a running task whose settlement is not preempted by the timeout
(no timeout configured, or it settles before the deadline) settles the
future returned by `add` with exactly its own outcome: resolution with
`V` resolves the future with exactly `V`, failure with `E` rejects it
with exactly `E`. -/
theorem task_outcome_roundtrip (env : Nat → TaskSpec) (s : QState) (i : Nat)
    (hi : i ∈ s.running)
    (h : s.timeout = 0 ∨ (env i).settleTime < s.timeout) :
    (stepSettle env s i).settled = s.settled ++ [(i, (env i).outcome)] := by
  have hobs : taskObserved s.timeout (env i) = (env i).outcome := by
    rcases h with h0 | hfast
    · unfold taskObserved
      rw [h0]
      simp
    · unfold taskObserved withTimeout
      by_cases ht : 0 < s.timeout
      · rw [if_pos ht, if_pos hfast]
      · rw [if_neg ht]
  rw [stepSettle_settled env s i hi, hobs]

/-- A task environment where every task settles at 2 ms with the value
9. -/
def envFast : Nat → TaskSpec := fun _ => ⟨2, .ok 9⟩

/-- Witness for C5: task 7 settles at 2 ms, before the 5 ms deadline, and
its future resolves with exactly the value 9. -/
theorem task_outcome_roundtrip_witness :
    (stepSettle envFast sTimed 7).settled = sTimed.settled ++ [(7, .ok 9)] :=
  task_outcome_roundtrip envFast sTimed 7 (by decide) (Or.inr (by decide))

/-- C9: calling `start()` on a queue that is not paused is a no-op: the
whole state — in particular the `paused` flag, the waiting list and
`runningTasks` — is unchanged, and no task is started. -/
theorem start_nonPaused_noop (s : QState) (h : s.paused = false) :
    stepStart s = s ∧ (stepStart s).started = s.started := by
  have heq : stepStart s = s := by simp [stepStart, h]
  exact ⟨heq, by rw [heq]⟩

/-- Witness for C9: `start()` on a freshly constructed (running) queue
with default options changes nothing. -/
theorem start_nonPaused_noop_witness :
    stepStart (initQueue {}) = initQueue {} ∧
    (stepStart (initQueue {})).started = (initQueue {}).started :=
  start_nonPaused_noop (initQueue {}) rfl

end TaskQueueModel

namespace TaskQueueModel

/-- In an `autoStart` queue, any state is paused, out of waiting work, or
at its concurrency limit — the form the dispatch post-condition takes. -/
def DrainInv (s : QState) : Prop :=
  s.autoStart = true →
    s.paused = true ∨ s.taskQueue = [] ∨
      ltConc s.runningTasks s.concurrency = false

/-- Any state produced by `processQueue` satisfies the dispatch
post-condition. -/
theorem processQueue_drainPost (s : QState) :
    (processQueue s).paused = true ∨ (processQueue s).taskQueue = [] ∨
      ltConc (processQueue s).runningTasks (processQueue s).concurrency = false := by
  by_cases hp : s.paused = true
  · left
    rw [processQueue_paused]
    exact hp
  · rcases processQueue_drained s (by simpa using hp) with h | h
    · right; left; exact h
    · right; right; exact h

/-- Every step preserves the dispatch post-condition. -/
theorem drainInv_step (env : Nat → TaskSpec) (s : QState) (op : Op)
    (h : DrainInv s) : DrainInv (step env s op) := by
  intro ha
  have ha' : s.autoStart = true := by
    rw [← (step_config env s op).2.2]
    exact ha
  cases op with
  | add i p =>
    simp only [step, stepAdd]
    by_cases hb : (s.autoStart && !s.paused) = true
    · simp only [hb, if_true]
      exact processQueue_drainPost _
    · simp only [hb, if_false, Bool.false_eq_true]
      left
      show s.paused = true
      simp only [ha', Bool.true_and, Bool.not_eq_true'] at hb
      simpa using hb
  | pause => left; rfl
  | start =>
    simp only [step, stepStart]
    split
    · exact processQueue_drainPost _
    · exact h ha'
  | clear => right; left; rfl
  | settle i =>
    simp only [step, stepSettle]
    split
    · obtain ⟨hc1, -, -, hp4, hq5, hr6, -, -, -⟩ := afterSettle_fields (settleCore env i s)
      rw [hp4, hq5, hr6, hc1]
      unfold afterSettleBase
      split
      · left; assumption
      · exact processQueue_drainPost _
    · exact h ha'

/-- Every reachable state satisfies the dispatch post-condition. -/
theorem reach_drainInv (env : Nat → TaskSpec) (o : Options) (ops : List Op) :
    DrainInv (reach env o ops) :=
  run_preserve env DrainInv (fun s' op h => drainInv_step env s' op h) ops
    (initQueue o) (fun _ => Or.inr (Or.inl rfl))

/-- Submitting to an empty, unpaused `autoStart` queue below its limit
starts the submitted task at once. -/
theorem stepAdd_empty_dispatch (s : QState) (i : Nat) (p : Int)
    (ha : s.autoStart = true) (hp : s.paused = false)
    (hc : ltConc s.runningTasks s.concurrency = true) (hq : s.taskQueue = []) :
    (stepAdd s i p).started = s.started ++ [i] ∧
    (stepAdd s i p).runningTasks = s.runningTasks + 1 := by
  have hsort : sortByPriority (s.taskQueue ++ [⟨i, p⟩]) = [⟨i, p⟩] := by
    rw [hq]
    rfl
  have hgo : processGo s.concurrency [⟨i, p⟩] s.runningTasks
      = ([], s.runningTasks + 1, [i]) := by
    simp [processGo, hc]
  constructor <;>
    simp [stepAdd, processQueue, ha, hp, hsort, hgo]

/-- C6 (amended): `add` invokes dispatch only when the queue was
constructed with `autoStart = true` and is not paused; for such a queue,
submitting while `runningTasks` is below `concurrency` starts the
submitted task immediately.  (A queue constructed with `autoStart = false`
never dispatches from `add`, even after `start()` lifted the pause — see
the counterexample.) -/
theorem add_dispatches_when_autoStart (env : Nat → TaskSpec) (o : Options)
    (ops : List Op) (i : Nat) (p : Int)
    (ha : o.autoStart = true)
    (hp : (reach env o ops).paused = false)
    (hc : ltConc (reach env o ops).runningTasks (reach env o ops).concurrency = true) :
    (stepAdd (reach env o ops) i p).started = (reach env o ops).started ++ [i] ∧
    (stepAdd (reach env o ops) i p).runningTasks
      = (reach env o ops).runningTasks + 1 := by
  have ha' : (reach env o ops).autoStart = true := by
    have := (run_config env ops (initQueue o)).2.2
    show (run env ops (initQueue o)).autoStart = true
    rw [this]
    exact ha
  have hq : (reach env o ops).taskQueue = [] := by
    rcases reach_drainInv env o ops ha' with h1 | h2 | h3
    · rw [hp] at h1; cases h1
    · exact h2
    · rw [hc] at h3; cases h3
  exact stepAdd_empty_dispatch (reach env o ops) i p ha' hp hc hq

/-- An `autoStart` queue with concurrency 2, for the C6 witness. -/
def oTwo : Options := { concurrency := .finite 2 }

/-- Witness for the amended C6: with one task in flight out of a limit of
2, a fresh submission starts immediately. -/
theorem add_dispatches_when_autoStart_witness :
    (stepAdd (reach env0 oTwo [.add 1 0]) 2 0).started
        = (reach env0 oTwo [.add 1 0]).started ++ [2] ∧
    (stepAdd (reach env0 oTwo [.add 1 0]) 2 0).runningTasks
        = (reach env0 oTwo [.add 1 0]).runningTasks + 1 :=
  add_dispatches_when_autoStart env0 oTwo [.add 1 0] 2 0 rfl (by decide) (by decide)

/-- C6 (counterexample): a queue constructed with `autoStart = false` on
which `start()` has since been called is not paused and has spare
capacity, yet a subsequent submission starts nothing: the entry stays in
the waiting list and the start log stays empty, because `add` guards its
dispatch on the constructor-time `autoStart` flag rather than on `paused`
alone. -/
theorem add_after_start_no_dispatch_counterexample :
    (reach env0 oPaused1 [.start, .add 0 0]).paused = false ∧
    ltConc (reach env0 oPaused1 [.start, .add 0 0]).runningTasks
        (reach env0 oPaused1 [.start, .add 0 0]).concurrency = true ∧
    (reach env0 oPaused1 [.start, .add 0 0]).started = [] ∧
    (reach env0 oPaused1 [.start, .add 0 0]).taskQueue = [⟨0, 0⟩] ∧
    (reach env0 oPaused1 [.start, .add 0 0]).runningTasks = 0 := by
  decide

end TaskQueueModel

namespace TaskQueueModel

/-- A queue with non-positive finite concurrency never makes progress:
nothing runs, nothing has started, nothing has settled. -/
def FrozenInv (n : Int) (s : QState) : Prop :=
  s.concurrency = .finite n ∧ s.runningTasks = 0 ∧ s.running = [] ∧
    s.started = [] ∧ s.settled = []

/-- A frozen queue's guard fails, so `processQueue` changes nothing. -/
theorem processQueue_frozen (n : Int) (hn : n ≤ 0) (s' : QState)
    (h : FrozenInv n s') : FrozenInv n (processQueue s') := by
  obtain ⟨hc, hr, hrl, hst, hse⟩ := h
  have hguard : ltConc s'.runningTasks s'.concurrency = false := by
    rw [hr, hc]
    simp only [ltConc, decide_eq_false_iff_not, not_lt]
    exact_mod_cast hn
  rw [processQueue_stuck s' hguard]
  exact ⟨hc, hr, hrl, hst, hse⟩

/-- Every step preserves the frozen state of a queue whose finite
concurrency is non-positive. -/
theorem frozen_step (env : Nat → TaskSpec) (s : QState) (op : Op) (n : Int)
    (hn : n ≤ 0) (h : FrozenInv n s) : FrozenInv n (step env s op) := by
  obtain ⟨hc, hr, hrl, hst, hse⟩ := h
  cases op with
  | add i p =>
    simp only [step, stepAdd]
    split
    · exact processQueue_frozen n hn _ ⟨hc, hr, hrl, hst, hse⟩
    · exact ⟨hc, hr, hrl, hst, hse⟩
  | pause => exact ⟨hc, hr, hrl, hst, hse⟩
  | start =>
    simp only [step, stepStart]
    split
    · exact processQueue_frozen n hn _ ⟨hc, hr, hrl, hst, hse⟩
    · exact ⟨hc, hr, hrl, hst, hse⟩
  | clear => exact ⟨hc, hr, hrl, hst, hse⟩
  | settle i =>
    simp only [step, stepSettle]
    split
    · rename_i hmem
      rw [hrl] at hmem
      exact absurd hmem (List.not_mem_nil i)
    · exact ⟨hc, hr, hrl, hst, hse⟩

/-- A queue constructed with non-positive finite concurrency stays frozen
under every operation sequence. -/
theorem frozen_run (env : Nat → TaskSpec) (ops : List Op) (o : Options)
    (n : Int) (hn : n ≤ 0) (hc : o.concurrency = .finite n) :
    FrozenInv n (run env ops (initQueue o)) :=
  run_preserve env (FrozenInv n) (fun s op h => frozen_step env s op n hn h)
    ops (initQueue o) ⟨hc, rfl, rfl, rfl, rfl⟩

/-- C7 (amended): construction validates nothing: every configuration —
including a negative concurrency — constructs successfully, and the misuse
does not raise an error at dispatch time either; it only shows as the
queue never starting any task. -/
theorem construction_never_validates (o : Options) (n : Int)
    (env : Nat → TaskSpec) (ops : List Op)
    (hn : n ≤ 0) (hc : o.concurrency = .finite n) :
    initQueueChecked o = .ok (initQueue o) ∧
    (run env ops (initQueue o)).started = [] ∧
    (run env ops (initQueue o)).runningTasks = 0 := by
  obtain ⟨-, h2, -, h4, -⟩ := frozen_run env ops o n hn hc
  exact ⟨rfl, h4, h2⟩

/-- A (mis)configuration with negative concurrency. -/
def oNeg : Options := { concurrency := .finite (-1) }

/-- C7 (counterexample): constructing a queue with `concurrency = -1`
does not fail fast — it succeeds, returning an ordinary queue state. -/
theorem construction_negative_concurrency_ok_counterexample :
    initQueueChecked oNeg = .ok (initQueue oNeg) ∧
    (initQueue oNeg).concurrency = .finite (-1) :=
  ⟨rfl, rfl⟩

/-- Witness for the amended C7: the queue with `concurrency = -1`
constructs fine and, after a submission and a `start()`, has run
nothing. -/
theorem construction_never_validates_witness :
    initQueueChecked oNeg = .ok (initQueue oNeg) ∧
    (run env0 [.add 0 0, .start] (initQueue oNeg)).started = [] ∧
    (run env0 [.add 0 0, .start] (initQueue oNeg)).runningTasks = 0 :=
  construction_never_validates oNeg (-1) env0 [.add 0 0, .start] (by decide) rfl

/-- C10: a queue whose finite concurrency is non-positive still accepts
submissions — every `add` grows the waiting list by exactly one — but no
submitted task ever starts, `runningTasks` stays 0 forever, and no future
returned by `add` ever settles, whatever start/pause/clear/settle
operations occur. -/
theorem nonpositive_concurrency_freezes (o : Options) (n : Int)
    (env : Nat → TaskSpec) (ops : List Op)
    (hn : n ≤ 0) (hc : o.concurrency = .finite n) :
    (run env ops (initQueue o)).runningTasks = 0 ∧
    (run env ops (initQueue o)).started = [] ∧
    (run env ops (initQueue o)).settled = [] ∧
    ∀ i p, (stepAdd (run env ops (initQueue o)) i p).taskQueue.length
        = (run env ops (initQueue o)).taskQueue.length + 1 := by
  obtain ⟨hcq, h2, -, h4, h5⟩ := frozen_run env ops o n hn hc
  refine ⟨h2, h4, h5, ?_⟩
  intro i p
  have hguard : ltConc (run env ops (initQueue o)).runningTasks
      (run env ops (initQueue o)).concurrency = false := by
    rw [h2, hcq]
    simp only [ltConc, decide_eq_false_iff_not, not_lt]
    exact_mod_cast hn
  have hs1 : processQueue ({ run env ops (initQueue o) with
        taskQueue := sortByPriority ((run env ops (initQueue o)).taskQueue ++ [⟨i, p⟩])
        events := (run env ops (initQueue o)).events ++ [Ev.add] } : QState)
      = { run env ops (initQueue o) with
        taskQueue := sortByPriority ((run env ops (initQueue o)).taskQueue ++ [⟨i, p⟩])
        events := (run env ops (initQueue o)).events ++ [Ev.add] } :=
    processQueue_stuck _ hguard
  simp only [stepAdd]
  split
  · rw [hs1]
    simp [sortByPriority]
  · simp [sortByPriority]

/-- A queue with concurrency 0, for the C10 witness. -/
def oZero : Options := { concurrency := .finite 0 }

/-- Witness for C10: with concurrency 0, after a submission, a `start()`
and a settlement attempt, nothing has run or settled, and another
submission still grows the waiting list. -/
theorem nonpositive_concurrency_freezes_witness :
    (run env0 [.add 0 0, .start, .settle 0] (initQueue oZero)).runningTasks = 0 ∧
    (run env0 [.add 0 0, .start, .settle 0] (initQueue oZero)).started = [] ∧
    (run env0 [.add 0 0, .start, .settle 0] (initQueue oZero)).settled = [] ∧
    ∀ i p, (stepAdd (run env0 [.add 0 0, .start, .settle 0] (initQueue oZero)) i p).taskQueue.length
        = (run env0 [.add 0 0, .start, .settle 0] (initQueue oZero)).taskQueue.length + 1 :=
  nonpositive_concurrency_freezes oZero 0 env0 [.add 0 0, .start, .settle 0]
    (by decide) rfl

end TaskQueueModel

namespace TaskQueueModel

/-- Identifier `i` is nowhere in the queue's books: not running, not
waiting, and never settled. -/
def untracked (i : Nat) (s : QState) : Prop :=
  i ∉ s.running ∧ (∀ e ∈ s.taskQueue, e.id ≠ i) ∧ (∀ x ∈ s.settled, x.1 ≠ i)

/-- Dispatch only moves waiting entries into the running set, so an
untracked identifier stays untracked. -/
theorem untracked_processQueue (i : Nat) (s : QState) (h : untracked i s) :
    untracked i (processQueue s) := by
  obtain ⟨h1, h2, h3⟩ := h
  obtain ⟨k, hq, -, hrun, -, -, -⟩ := processQueue_spec s
  refine ⟨?_, ?_, ?_⟩
  · rw [hrun]
    intro hmem
    rcases List.mem_append.mp hmem with hm | hm
    · exact h1 hm
    · obtain ⟨e, he, heid⟩ := List.mem_map.mp hm
      exact h2 e (List.mem_of_mem_take he) heid
  · rw [hq]
    intro e he
    exact h2 e (List.mem_of_mem_drop he)
  · rw [processQueue_settled]
    exact h3

/-- Any step that does not resubmit identifier `i` keeps it untracked: it
cannot start, and its future cannot settle. -/
theorem untracked_step (env : Nat → TaskSpec) (s : QState) (op : Op) (i : Nat)
    (h : untracked i s) (hop : opAddsId op i = false) :
    untracked i (step env s op) := by
  obtain ⟨h1, h2, h3⟩ := h
  cases op with
  | add j p =>
    have hji : j ≠ i := by simpa [opAddsId] using hop
    have h2' : ∀ e ∈ sortByPriority (s.taskQueue ++ [⟨j, p⟩]), e.id ≠ i := by
      intro e he
      rcases List.mem_append.mp ((List.mem_insertionSort prioLE).mp he) with hm | hm
      · exact h2 e hm
      · rcases List.mem_singleton.mp hm with rfl
        exact hji
    simp only [step, stepAdd]
    split
    · exact untracked_processQueue i _ ⟨h1, h2', h3⟩
    · exact ⟨h1, h2', h3⟩
  | pause => exact ⟨h1, h2, h3⟩
  | start =>
    simp only [step, stepStart]
    split
    · exact untracked_processQueue i _ ⟨h1, h2, h3⟩
    · exact ⟨h1, h2, h3⟩
  | clear =>
    refine ⟨h1, ?_, h3⟩
    intro e he
    exact absurd he (List.not_mem_nil e)
  | settle j =>
    simp only [step, stepSettle]
    split
    · rename_i hjmem
      have hji : j ≠ i := fun heq => h1 (heq ▸ hjmem)
      have hsc : untracked i (settleCore env j s) := by
        refine ⟨?_, h2, ?_⟩
        · intro hmem
          exact h1 (List.mem_of_mem_erase hmem)
        · intro x hx
          rcases List.mem_append.mp hx with hm | hm
          · exact h3 x hm
          · rcases List.mem_singleton.mp hm with rfl
            exact hji
      obtain ⟨-, -, -, -, hq5, -, hr7, -, hs9⟩ := afterSettle_fields (settleCore env j s)
      refine ⟨?_, ?_, ?_⟩
      · rw [hr7]
        unfold afterSettleBase
        split
        · exact hsc.1
        · exact (untracked_processQueue i _ hsc).1
      · rw [hq5]
        unfold afterSettleBase
        split
        · exact hsc.2.1
        · exact (untracked_processQueue i _ hsc).2.1
      · rw [hs9]
        unfold afterSettleBase
        split
        · exact hsc.2.2
        · exact (untracked_processQueue i _ hsc).2.2
    · exact ⟨h1, h2, h3⟩

/-- An untracked identifier stays untracked over any run that does not
resubmit it. -/
theorem untracked_run (env : Nat → TaskSpec) (ops : List Op) (i : Nat) :
    ∀ s : QState, untracked i s → (∀ op ∈ ops, opAddsId op i = false) →
      untracked i (run env ops s) := by
  induction ops with
  | nil =>
    intro s h _
    simpa [run] using h
  | cons op rest ih =>
    intro s h hops
    have h1 := untracked_step env s op i h (hops op (List.mem_cons_self op rest))
    have hrest : ∀ op2 ∈ rest, opAddsId op2 i = false :=
      fun op2 hm => hops op2 (List.mem_cons_of_mem _ hm)
    simpa [run] using ih (step env s op) h1 hrest

/-- C8: `clear()` empties the waiting list and nothing else: it leaves
`runningTasks`, the `paused` flag, the in-flight set, the start log and
the settlement log untouched, so it settles none of the discarded
entries' futures; and a discarded identifier (one that is not running and
not already settled) is never settled by any later operations that do not
resubmit it — its future remains pending forever. -/
theorem clear_discards_without_settling (s : QState) (env : Nat → TaskSpec)
    (i : Nat) (ops : List Op)
    (h1 : i ∉ s.running) (h3 : ∀ x ∈ s.settled, x.1 ≠ i)
    (hops : ∀ op ∈ ops, opAddsId op i = false) :
    (stepClear s).taskQueue = [] ∧
    (stepClear s).runningTasks = s.runningTasks ∧
    (stepClear s).paused = s.paused ∧
    (stepClear s).running = s.running ∧
    (stepClear s).started = s.started ∧
    (stepClear s).settled = s.settled ∧
    ∀ x ∈ (run env ops (stepClear s)).settled, x.1 ≠ i := by
  refine ⟨rfl, rfl, rfl, rfl, rfl, rfl, ?_⟩
  have hcl : untracked i (stepClear s) := by
    refine ⟨h1, ?_, h3⟩
    intro e he
    exact absurd he (List.not_mem_nil e)
  exact (untracked_run env ops i (stepClear s) hcl hops).2.2

/-- A paused queue with three waiting tasks and none running, for the C8
witness. -/
def sThreeWaiting : QState :=
  { concurrency := .finite 1
    timeout := 0
    throwOnTimeout := false
    autoStart := false
    taskQueue := [⟨0, 0⟩, ⟨1, 0⟩, ⟨2, 0⟩]
    runningTasks := 0
    paused := true
    running := []
    started := []
    settled := []
    events := [Ev.add, Ev.add, Ev.add] }

/-- Witness for C8: clearing the three-task queue empties the waiting
list, changes nothing else, and task 0's future is still unsettled after
a later start, submission and settlement of other work. -/
theorem clear_discards_without_settling_witness :
    (stepClear sThreeWaiting).taskQueue = [] ∧
    (stepClear sThreeWaiting).runningTasks = sThreeWaiting.runningTasks ∧
    (stepClear sThreeWaiting).paused = sThreeWaiting.paused ∧
    (stepClear sThreeWaiting).running = sThreeWaiting.running ∧
    (stepClear sThreeWaiting).started = sThreeWaiting.started ∧
    (stepClear sThreeWaiting).settled = sThreeWaiting.settled ∧
    ∀ x ∈ (run env0 [.start, .add 5 1, .settle 5] (stepClear sThreeWaiting)).settled,
      x.1 ≠ 0 :=
  clear_discards_without_settling sThreeWaiting env0 0 [.start, .add 5 1, .settle 5]
    (by decide) (by decide) (by decide)

end TaskQueueModel
